import Mathlib

/-!
# TubeGrab server — verification of the queue / progress-tracking subsystem

Shallow embedding of the in-memory job queue, rate limiter, job runner and
record store of `src/server.js` (the companion variant in `src/unnamed/part_000`
is modelled where it differs and the difference matters).  Time is modelled as
`Nat` milliseconds, strings as Lean `String`s (or `List Char` where character
level reasoning is needed), and the filesystem's download directory as the list
of file names that `readdirSync` would return.
-/

namespace TubeGrab

/-! ## Helpers: `sanitize` (src/server.js lines 181-184) -/

/-- The character class removed by `sanitize`:
`str.replace(/[<>:"\/\\|?*\x00-\x1F]/g, '')`. -/
def isForbidden (c : Char) : Bool :=
  c = '<' || c = '>' || c = ':' || c = '"' || c = '/' || c = '\\' ||
  c = '|' || c = '?' || c = '*' || decide (c.toNat ≤ 0x1F)

/-- JavaScript `String.prototype.trim` whitespace (WhiteSpace ∪ LineTerminator):
tab, LF, VT, FF, CR, space, NBSP, BOM, the Unicode space separators and the
line/paragraph separators. -/
def isJsSpace (c : Char) : Bool :=
  decide (c.toNat = 0x09) || decide (c.toNat = 0x0A) || decide (c.toNat = 0x0B) ||
  decide (c.toNat = 0x0C) || decide (c.toNat = 0x0D) || c = ' ' ||
  decide (c.toNat = 0xA0) || decide (c.toNat = 0xFEFF) ||
  decide (c.toNat = 0x1680) || decide (0x2000 ≤ c.toNat ∧ c.toNat ≤ 0x200A) ||
  decide (c.toNat = 0x2028) || decide (c.toNat = 0x2029) ||
  decide (c.toNat = 0x202F) || decide (c.toNat = 0x205F) || decide (c.toNat = 0x3000)

/-- JavaScript `trim`: drop `isJsSpace` characters from both ends. -/
def jsTrim (cs : List Char) : List Char :=
  ((cs.dropWhile isJsSpace).reverse.dropWhile isJsSpace).reverse

/-- `sanitize(str)` from src/server.js: `none` models a missing (`null` /
`undefined`) argument, `some []` the empty string — both are falsy in
JavaScript and give the fallback `'video'`.  Otherwise the forbidden
characters are stripped, the result trimmed, truncated to 80 characters, and
the fallback used if the outcome is empty. -/
def sanitize (s : Option (List Char)) : List Char :=
  match s with
  | none => "video".toList
  | some cs =>
    if cs = [] then "video".toList
    else
      let r := (jsTrim (cs.filter (fun c => !isForbidden c))).take 80
      if r = [] then "video".toList else r

/-- `sanitize` lifted to `String`, as used on the fetched video title. -/
def sanitizeStr (s : String) : String :=
  String.mk (sanitize (some s.toList))

lemma mem_jsTrim {c : Char} {cs : List Char} (h : c ∈ jsTrim cs) : c ∈ cs := by
  unfold jsTrim at h
  have h1 := List.mem_reverse.mp h
  have h2 := (List.dropWhile_sublist (l := (cs.dropWhile isJsSpace).reverse)
    (p := isJsSpace)).mem h1
  exact (List.dropWhile_sublist (l := cs) (p := isJsSpace)).mem (List.mem_reverse.mp h2)

lemma sanitize_video_case : ("video".toList ≠ ([] : List Char)) ∧
    ("video".toList.length ≤ 80) ∧ ∀ c ∈ "video".toList, isForbidden c = false := by
  refine ⟨by decide, by decide, ?_⟩
  intro c hc
  fin_cases hc <;> decide

/-- C10: for every input (missing, empty, or any string), `sanitize` returns a
non-empty list of at most 80 characters containing no forbidden character
(`< > : " / \ | ? *` or a control character `0x00`-`0x1F`); inputs that reduce
to nothing yield the fallback `'video'`. -/
theorem sanitize_safe_filename (s : Option (List Char)) :
    sanitize s ≠ [] ∧ (sanitize s).length ≤ 80 ∧
      (∀ c ∈ sanitize s, isForbidden c = false) ∧
      sanitize none = "video".toList ∧ sanitize (some []) = "video".toList := by
  obtain ⟨hv1, hv2, hv3⟩ := sanitize_video_case
  refine ⟨?_, ?_, ?_, rfl, rfl⟩
  · match s with
    | none => exact hv1
    | some cs =>
      by_cases hc : cs = []
      · subst hc; simpa [sanitize] using hv1
      · simp only [sanitize, hc, if_false]
        by_cases hr : (jsTrim (cs.filter (fun c => !isForbidden c))).take 80 = []
        · simpa [hr] using hv1
        · simpa [hr] using hr
  · match s with
    | none => exact hv2
    | some cs =>
      by_cases hc : cs = []
      · subst hc; simpa [sanitize] using hv2
      · simp only [sanitize, hc, if_false]
        by_cases hr : (jsTrim (cs.filter (fun c => !isForbidden c))).take 80 = []
        · simpa [hr] using hv2
        · simp only [hr, if_false]
          exact le_trans (List.length_take_le 80 _) (le_refl 80)
  · intro c hcmem
    match s with
    | none => exact hv3 c hcmem
    | some cs =>
      by_cases hc : cs = []
      · subst hc; exact hv3 c (by simpa [sanitize] using hcmem)
      · simp only [sanitize, hc, if_false] at hcmem
        by_cases hr : (jsTrim (cs.filter (fun c => !isForbidden c))).take 80 = []
        · exact hv3 c (by simpa [hr] using hcmem)
        · simp only [hr, if_false] at hcmem
          have h1 : c ∈ jsTrim (cs.filter (fun c => !isForbidden c)) :=
            List.mem_of_mem_take hcmem
          have h2 : c ∈ cs.filter (fun c => !isForbidden c) := mem_jsTrim h1
          have := List.of_mem_filter h2
          simpa using this

/-! ## Rate limiter (src/server.js lines 129-153)

`rateLimiter` keeps, per client key, a mutable `{count, resetTime}` entry in
the `requestCounts` map.  We model the per-key entry and one request-handling
step; `true` means the request is allowed (`next()`), `false` means it is
rejected with HTTP 429. -/

/-- One entry of the `requestCounts` map. -/
structure RLData where
  count : Nat
  resetTime : Nat
deriving DecidableEq, Repr

/-- `windowMs` in `rateLimiter` (60000 ms). -/
def windowMs : Nat := 60000

/-- `maxRequests` in `rateLimiter` (10 per window). -/
def maxRequests : Nat := 10

/-- One run of `rateLimiter` for a single client key: given that key's current
entry (`none` if absent) and the current time, return the new entry and
whether the request was allowed. -/
def rateLimitStep (entry : Option RLData) (now : Nat) : RLData × Bool :=
  match entry with
  | none => (⟨1, now + windowMs⟩, true)
  | some d =>
    if d.resetTime < now then (⟨1, now + windowMs⟩, true)
    else if maxRequests ≤ d.count then (d, false)
    else (⟨d.count + 1, d.resetTime⟩, true)

/-- Run a sequence of requests (given by their times) from one client,
threading the entry through; returns the per-request `(entry, allowed)` list. -/
def rlTrace (entry : Option RLData) : List Nat → List (RLData × Bool)
  | [] => []
  | t :: ts =>
    let r := rateLimitStep entry t
    r :: rlTrace (some r.1) ts

/-- The allowed/rejected outcomes of a request sequence. -/
def rlResults (entry : Option RLData) (ts : List Nat) : List Bool :=
  (rlTrace entry ts).map Prod.snd

lemma rlTrace_in_window (ts : List Nat) :
    ∀ c R, 1 ≤ c → c ≤ maxRequests → (∀ t ∈ ts, t ≤ R) →
      rlTrace (some ⟨c, R⟩) ts
        = (List.range ts.length).map
            (fun i => (⟨min (c + i + 1) maxRequests, R⟩, decide (c + i < maxRequests))) := by
  induction ts with
  | nil => intro c R _ _ _; simp [rlTrace]
  | cons t ts ih =>
    intro c R hc hcm hin
    have ht : t ≤ R := hin t (List.mem_cons_self t ts)
    have hnr : ¬ R < t := not_lt.mpr ht
    by_cases hsat : maxRequests ≤ c
    · have h0 : rateLimitStep (some ⟨c, R⟩) t = (⟨c, R⟩, false) := by
        simp [rateLimitStep, hnr, hsat]
      have htl := ih c R hc hcm (fun u hu => hin u (List.mem_cons_of_mem t hu))
      rw [rlTrace, h0, htl, List.length_cons, List.range_succ_eq_map]
      simp only [List.map_cons, List.map_map]
      refine congrArg₂ List.cons ?_ (List.map_congr_left ?_)
      · have : min (c + 0 + 1) maxRequests = c := by omega
        simp [this, Nat.not_lt.mpr hsat]
      · intro i _
        have h1 : min (c + i + 1) maxRequests = min (c + (i + 1) + 1) maxRequests := by omega
        have h2 : (c + i < maxRequests) = (c + (i + 1) < maxRequests) := by
          apply propext; constructor <;> intro <;> omega
        simp [Function.comp, h1, h2]
    · have hlt : c < maxRequests := lt_of_not_ge hsat
      have h0 : rateLimitStep (some ⟨c, R⟩) t = (⟨c + 1, R⟩, true) := by
        simp [rateLimitStep, hnr, hsat]
      have htl := ih (c + 1) R (by omega) (by omega)
        (fun u hu => hin u (List.mem_cons_of_mem t hu))
      rw [rlTrace, h0, htl, List.length_cons, List.range_succ_eq_map]
      simp only [List.map_cons, List.map_map]
      refine congrArg₂ List.cons ?_ (List.map_congr_left ?_)
      · have : min (c + 0 + 1) maxRequests = c + 1 := by omega
        simp [this, hlt]
      · intro i _
        have h1 : min (c + 1 + i + 1) maxRequests = min (c + (i + 1) + 1) maxRequests := by
          omega
        have h2 : (c + 1 + i < maxRequests) = (c + (i + 1) < maxRequests) := by
          apply propext; constructor <;> intro <;> omega
        simp [Function.comp, h1, h2]

/-- C3: the rate limiter is a fixed-window counter.  A first request at `t0`
creates `{count := 1, resetTime := t0 + windowMs}` and is allowed; for any
further requests inside that window (at times `≤ t0 + windowMs`) the i-th
request overall is allowed exactly when `i < maxRequests` — every request
beyond the limit gets 429; a rejection leaves the entry unchanged
(no increment); and any request strictly after `resetTime` resets the count
to 1, extends the window, and is allowed. -/
theorem rate_limiter_fixed_window (t0 : Nat) (ts : List Nat)
    (hin : ∀ t ∈ ts, t ≤ t0 + windowMs) :
    rateLimitStep none t0 = (⟨1, t0 + windowMs⟩, true) ∧
    rlResults none (t0 :: ts)
      = (List.range (ts.length + 1)).map (fun i => decide (i < maxRequests)) ∧
    (∀ d : RLData, ∀ t : Nat, ¬ d.resetTime < t → maxRequests ≤ d.count →
      rateLimitStep (some d) t = (d, false)) ∧
    (∀ d : RLData, ∀ t : Nat, d.resetTime < t →
      rateLimitStep (some d) t = (⟨1, t + windowMs⟩, true)) := by
  refine ⟨rfl, ?_, ?_, ?_⟩
  · have h0 : rateLimitStep none t0 = (⟨1, t0 + windowMs⟩, true) := rfl
    rw [rlResults, rlTrace, h0,
      rlTrace_in_window ts 1 (t0 + windowMs) le_rfl (by decide) hin,
      List.range_succ_eq_map]
    simp only [List.map_cons, List.map_map]
    refine congrArg₂ List.cons (by decide) (List.map_congr_left ?_)
    intro i _
    have : (1 + i < maxRequests) = (i + 1 < maxRequests) := by
      apply propext; constructor <;> intro <;> omega
    simp [Function.comp, this]
  · intro d t h1 h2
    simp [rateLimitStep, h1, h2]
  · intro d t h1
    simp [rateLimitStep, h1]

/-- Witness for C3 at a concrete input: 13 requests at times
`0, 10, 20, ..., 120`, all inside the window opened at time 0; the first 10
are allowed and the remaining 3 are rejected. -/
theorem rate_limiter_fixed_window_witness :
    rlResults none [0, 10, 20, 30, 40, 50, 60, 70, 80, 90, 100, 110, 120]
      = [true, true, true, true, true, true, true, true, true, true,
         false, false, false] := by
  have h := (rate_limiter_fixed_window 0
    [10, 20, 30, 40, 50, 60, 70, 80, 90, 100, 110, 120] (by decide)).2.1
  rw [h]; decide

/-! ## Job records and the progress store (src/server.js lines 125, 439-449) -/

/-- The four job statuses. -/
inductive Status where
  | queued
  | processing
  | completed
  | error
deriving DecidableEq, Repr

/-- One entry of the `downloadProgress` map, as created by the
`POST /api/convert` handler. -/
structure JobRec where
  status : Status
  progress : Nat
  message : String
  timestamp : Nat
  filePath : Option String
  filename : Option String
  fileSize : Nat
deriving DecidableEq, Repr

/-- The initial record inserted on submission. -/
def initialRec (now : Nat) : JobRec :=
  { status := .queued, progress := 0, message := "Queued...", timestamp := now,
    filePath := none, filename := none, fileSize := 0 }

/-- The `downloadProgress` map, modelled as an association list with the
JavaScript `Map` key semantics: at most one binding per key. -/
def mapSet (m : List (String × JobRec)) (k : String) (v : JobRec) :
    List (String × JobRec) :=
  match m with
  | [] => [(k, v)]
  | (k2, v2) :: rest => if k2 = k then (k, v) :: rest else (k2, v2) :: mapSet rest k v

/-- `Map.prototype.get`. -/
def mapGet (m : List (String × JobRec)) (k : String) : Option JobRec :=
  match m with
  | [] => none
  | (k2, v2) :: rest => if k2 = k then some v2 else mapGet rest k

/-- Record creation in `POST /api/convert`:
`downloadProgress.set(id, { status: 'queued', ... })`.  Note this is an
unconditional `Map.set`: there is no presence check and no failure path. -/
def createRecord (m : List (String × JobRec)) (id : String) (now : Nat) :
    List (String × JobRec) :=
  mapSet m id (initialRec now)

lemma mapGet_mapSet_self (m : List (String × JobRec)) (k : String) (v : JobRec) :
    mapGet (mapSet m k v) k = some v := by
  induction m with
  | nil => simp [mapSet, mapGet]
  | cons p rest ih =>
    obtain ⟨k2, v2⟩ := p
    by_cases h : k2 = k
    · simp [mapSet, mapGet, h]
    · simp [mapSet, mapGet, h, ih]

lemma mapGet_mapSet_ne (m : List (String × JobRec)) (k k2 : String) (v : JobRec)
    (h : ¬ k = k2) : mapGet (mapSet m k v) k2 = mapGet m k2 := by
  induction m with
  | nil => simp [mapSet, mapGet, h]
  | cons p rest ih =>
    obtain ⟨k3, v3⟩ := p
    by_cases h3 : k3 = k
    · subst h3
      simp [mapSet, mapGet, h]
    · simp [mapSet, mapGet, h3, ih]

/-- Number of bindings a store holds for a given id. -/
def keyCount (k : String) : List (String × JobRec) → Nat
  | [] => 0
  | (k2, _) :: rest => (if k2 = k then 1 else 0) + keyCount k rest

lemma keyCount_mapSet_self (m : List (String × JobRec)) (k : String) (v : JobRec)
    (h : keyCount k m ≤ 1) : keyCount k (mapSet m k v) = 1 := by
  induction m with
  | nil => simp [mapSet, keyCount]
  | cons p rest ih =>
    obtain ⟨k2, v2⟩ := p
    simp only [keyCount] at h
    by_cases h2 : k2 = k
    · rw [if_pos h2] at h
      have h0 : keyCount k rest = 0 := by omega
      simp [mapSet, keyCount, h2, h0]
    · rw [if_neg h2] at h
      simp [mapSet, keyCount, h2, ih (by omega)]

lemma keyCount_mapSet_ne (m : List (String × JobRec)) (k k2 : String) (v : JobRec)
    (h : ¬ k = k2) : keyCount k2 (mapSet m k v) = keyCount k2 m := by
  induction m with
  | nil => simp [mapSet, keyCount, h]
  | cons p rest ih =>
    obtain ⟨k3, v3⟩ := p
    by_cases h3 : k3 = k
    · subst h3
      simp [mapSet, keyCount, h]
    · simp [mapSet, keyCount, h3, ih]

/-- Counterexample to C8: record creation does **not** fail when the id is
already present — `Map.set` silently replaces the existing record.  Here a
store already holds a completed record under id `"a"`; creating a new job with
the same id yields a fresh `queued` record under `"a"`, and the old record is
gone. -/
theorem create_overwrites_existing :
    createRecord
        [("a", { status := .completed, progress := 10000, message := "Ready!",
                 timestamp := 0, filePath := some "f", filename := some "n",
                 fileSize := 7 })] "a" 5
      = [("a", initialRec 5)] ∧
    mapGet (createRecord
        [("a", { status := .completed, progress := 10000, message := "Ready!",
                 timestamp := 0, filePath := some "f", filename := some "n",
                 fileSize := 7 })] "a" 5) "a" = some (initialRec 5) ∧
    initialRec 5 ≠ { status := .completed, progress := 10000, message := "Ready!",
                     timestamp := 0, filePath := some "f", filename := some "n",
                     fileSize := 7 } := by
  refine ⟨rfl, rfl, by decide⟩

/-- C8 (amended): record creation is an unconditional `Map.set` under the newly
generated id: it silently overwrites any record already stored under that id
rather than failing.  After creation the store holds exactly one binding for
the id — the fresh `queued` record — and every other id's binding is
untouched, so each submitted job has exactly one record in the store until it
is explicitly deleted. -/
theorem create_record_unique (m : List (String × JobRec)) (id : String) (now : Nat)
    (hwf : ∀ k, keyCount k m ≤ 1) :
    mapGet (createRecord m id now) id = some (initialRec now) ∧
    keyCount id (createRecord m id now) = 1 ∧
    ∀ k, ¬ id = k →
      keyCount k (createRecord m id now) = keyCount k m ∧
      mapGet (createRecord m id now) k = mapGet m k := by
  exact ⟨mapGet_mapSet_self m id (initialRec now),
    keyCount_mapSet_self m id (initialRec now) (hwf id),
    fun k hk => ⟨keyCount_mapSet_ne m id k (initialRec now) hk,
      mapGet_mapSet_ne m id k (initialRec now) hk⟩⟩

/-- Witness for C8 (amended) on a concrete store holding one other record. -/
theorem create_record_unique_witness :
    mapGet (createRecord [("b", initialRec 0)] "a" 5) "a" = some (initialRec 5) ∧
    keyCount "a" (createRecord [("b", initialRec 0)] "a" 5) = 1 ∧
    ∀ k, ¬ "a" = k →
      keyCount k (createRecord [("b", initialRec 0)] "a" 5)
          = keyCount k [("b", initialRec 0)] ∧
      mapGet (createRecord [("b", initialRec 0)] "a" 5) k
        = mapGet [("b", initialRec 0)] k := by
  refine create_record_unique [("b", initialRec 0)] "a" 5 ?_
  intro k
  simp only [keyCount]
  split <;> omega

/-! ## Submission and info endpoints (src/server.js lines 390-399, 428-459) -/

/-- JavaScript falsiness of an optional string argument: missing
(`undefined` / `null`) or the empty string. -/
def isFalsy : Option String → Bool
  | none => true
  | some s => s = ""

/-- `pat` matches at the head of `s`. -/
def headMatch : List Char → List Char → Bool
  | [], _ => true
  | _ :: _, [] => false
  | c :: ps, d :: ss => c = d && headMatch ps ss

/-- `pat` occurs as a contiguous run inside `s` (JavaScript
`String.prototype.includes`). -/
def containsSeq (pat : List Char) : List Char → Bool
  | [] => headMatch pat []
  | c :: rest => headMatch pat (c :: rest) || containsSeq pat rest

/-- The URL guard of `GET /api/info`: `/youtube\.com|youtu\.be/i.test(url)`. -/
def isYouTubeUrl (url : String) : Bool :=
  let l := url.toList.map Char.toLower
  containsSeq "youtube.com".toList l || containsSeq "youtu.be".toList l

/-- Response of `POST /api/convert`. -/
inductive ConvertResp where
  | badRequest (msg : String)
  | busy
  | accepted (downloadId : String)
deriving DecidableEq, Repr

/-- A job as enqueued by `POST /api/convert` (and consumed by the queue). -/
structure Job where
  id : String
  url : String
  format : String
  quality : String
deriving DecidableEq, Repr

/-- The `POST /api/convert` handler: validates presence of `url` and `format`,
rejects when the pending queue holds 20 or more entries, otherwise creates the
job (record insertion plus enqueue) with the defaulted quality.  The second
component is the created job, `none` when no job is created.  Note: the
handler performs no YouTube-URL check. -/
def convertHandler (queueLen : Nat) (url format quality : Option String)
    (id : String) : ConvertResp × Option Job :=
  if isFalsy url || isFalsy format then
    (.badRequest "URL and format required", none)
  else if 20 ≤ queueLen then
    (.busy, none)
  else
    let u := url.getD ""
    let f := format.getD ""
    let q :=
      match quality with
      | some qq => if qq = "" then (if f = "mp3" then "192" else "720") else qq
      | none => if f = "mp3" then "192" else "720"
    (.accepted id, some ⟨id, u, f, q⟩)

/-- Response of `GET /api/info` (the success/failure of the external tool is
out of scope; `proceeds` marks that validation passed). -/
inductive InfoResp where
  | badRequest (msg : String)
  | proceeds
deriving DecidableEq, Repr

/-- The validation part of the `GET /api/info` handler. -/
def infoHandler (url : Option String) : InfoResp :=
  if isFalsy url then .badRequest "URL required"
  else if !isYouTubeUrl (url.getD "") then .badRequest "Invalid YouTube URL"
  else .proceeds

/-- Counterexample to C7: a submission with a well-formed but non-YouTube URL
is **not** rejected — `POST /api/convert` has no URL-support check, so the
request is accepted and a job is created and enqueued. -/
theorem convert_accepts_non_youtube_url :
    isYouTubeUrl "http://example.com/v" = false ∧
    convertHandler 0 (some "http://example.com/v") (some "mp3") none "id1"
      = (.accepted "id1", some ⟨"id1", "http://example.com/v", "mp3", "192"⟩) := by
  exact ⟨by decide, rfl⟩

/-- C7 (amended): a submission with a missing (or empty) URL or format is
rejected with HTTP 400 and no job is created — no record is inserted and
nothing is enqueued.  The unsupported-URL check exists only on
`GET /api/info`, which answers 400 for a present but non-YouTube URL (and for
a missing one); `POST /api/convert` accepts any URL. -/
theorem input_validation_400 (queueLen : Nat) (url format quality : Option String)
    (id : String) :
    (isFalsy url = true ∨ isFalsy format = true →
      convertHandler queueLen url format quality id
        = (.badRequest "URL and format required", none)) ∧
    (isFalsy url = true → infoHandler url = .badRequest "URL required") ∧
    (isFalsy url = false → isYouTubeUrl (url.getD "") = false →
      infoHandler url = .badRequest "Invalid YouTube URL") := by
  refine ⟨?_, ?_, ?_⟩
  · intro h
    rcases h with h | h <;> simp [convertHandler, h]
  · intro h
    simp [infoHandler, h]
  · intro h1 h2
    simp [infoHandler, h1, h2]

/-- Witness for C7 (amended): a missing URL on convert, a missing format on
convert, and a non-YouTube URL on info. -/
theorem input_validation_400_witness :
    convertHandler 0 none (some "mp3") none "a"
      = (.badRequest "URL and format required", none) ∧
    convertHandler 0 (some "http://youtube.com/w") none none "b"
      = (.badRequest "URL and format required", none) ∧
    infoHandler (some "http://example.com/v") = .badRequest "Invalid YouTube URL" := by
  refine ⟨(input_validation_400 0 none (some "mp3") none "a").1 (Or.inl (by decide)),
    (input_validation_400 0 (some "http://youtube.com/w") none none "b").1
      (Or.inr (by decide)),
    (input_validation_400 0 (some "http://example.com/v") none none "c").2.2
      (by decide) (by decide)⟩

/-! ## Job runner (`runDownload`, src/server.js lines 256-373)

The runner's interaction with the outside world (the external tool, the clock
and the filesystem) is captured by an environment: the result of the title
invocation, the percentage markers parsed from the tool's output, whether the
tool exited with code 0 (spawn errors and non-zero exits both reject), the
directory listing at artifact-resolution/cleanup time, and the artifact's
size.  Progress percentages are kept in hundredths so that
`10 + pct * 0.85` is exact (`1000 + pct * 85`). -/

/-- One `update(progress, message, status)` call on the job's record. -/
structure Upd where
  progress : Nat
  message : String
  status : Status
deriving DecidableEq, Repr

/-- Environment of one `runDownload` execution. -/
structure DlEnv where
  titleOut : Option String
  events : List Nat
  exitOk : Bool
  files : List String
  size : Nat
  fmtMB : Nat → String

/-- Observable outcome of one `runDownload` execution: the sequence of record
updates, the file names deleted by the error-path cleanup, and the final
artifact fields. -/
structure DlOutcome where
  updates : List Upd
  deleted : List String
  filePath : Option String
  filename : Option String
  fileSize : Option Nat
deriving DecidableEq, Repr

/-- Model of JavaScript `f.startsWith(pre)`. -/
def startsWithStr (f pre : String) : Bool :=
  headMatch pre.toList f.toList

/-- `const outputFile = path.join(DOWNLOADS_DIR, `id.ext`)`, as a name inside
the downloads directory. -/
def expectedOutput (j : Job) : String :=
  j.id ++ "." ++ (if j.format = "mp3" then "mp3" else "mp4")

/-- Artifact location (src/server.js lines 335-345): take the expected output
path if it exists, otherwise the first directory entry whose name starts with
the job id; `none` means the subsequent existence check fails and
`'File not created'` is thrown. -/
def resolveArtifact (files : List String) (id outputFile : String) : Option String :=
  if files.contains outputFile then some outputFile
  else files.find? (fun f => startsWithStr f id)

/-- The `processing` updates made before the outcome is known: `update(5,
'Starting...')`, `update(10, 'Downloading...')`, and one update per
percentage marker parsed from the tool's output. -/
def progressUpdates (events : List Nat) : List Upd :=
  ⟨500, "Starting...", .processing⟩ ::
  ⟨1000, "Downloading...", .processing⟩ ::
  events.map (fun pct =>
    ⟨1000 + pct * 85, "Downloading: " ++ toString pct ++ "%", .processing⟩)

/-- The terminal update of the error path:
`update(0, 'Download failed', 'error')`. -/
def failUpd : Upd := ⟨0, "Download failed", .error⟩

/-- `runDownload(job)`: fetch the title (non-fatally), run the external tool,
resolve the artifact, and end in exactly one terminal update.  Every failure
(non-zero exit, spawn error, artifact missing) is caught by the surrounding
`try`/`catch`, which emits the `error` update and deletes the directory
entries whose name starts with the job id. -/
def runDownload (j : Job) (env : DlEnv) : DlOutcome :=
  let title :=
    match env.titleOut with
    | some out => sanitizeStr out
    | none => "video"
  let ext := if j.format = "mp3" then "mp3" else "mp4"
  let fname := title ++ "." ++ ext
  let head := progressUpdates env.events
  if env.exitOk then
    match resolveArtifact env.files j.id (expectedOutput j) with
    | some finalPath =>
      { updates := head ++ [⟨10000, "Ready! (" ++ env.fmtMB env.size ++ " MB)",
          .completed⟩],
        deleted := [],
        filePath := some finalPath, filename := some fname,
        fileSize := some env.size }
    | none =>
      { updates := head ++ [failUpd],
        deleted := env.files.filter (fun f => startsWithStr f j.id),
        filePath := none, filename := none, fileSize := none }
  else
    { updates := head ++ [failUpd],
      deleted := env.files.filter (fun f => startsWithStr f j.id),
      filePath := none, filename := none, fileSize := none }

lemma progressUpdates_status {u : Upd} {events : List Nat}
    (h : u ∈ progressUpdates events) : u.status = Status.processing := by
  simp only [progressUpdates, List.mem_cons, List.mem_map] at h
  rcases h with h | h | ⟨pct, _, h⟩
  · rw [h]
  · rw [h]
  · rw [← h]

lemma runDownload_updates_shape (j : Job) (env : DlEnv) :
    ∃ last, (runDownload j env).updates = progressUpdates env.events ++ [last] ∧
      (last.status = Status.completed ∨ last.status = Status.error) := by
  unfold runDownload
  cases hE : env.exitOk
  · exact ⟨failUpd, rfl, Or.inr rfl⟩
  · simp only []
    cases hR : resolveArtifact env.files j.id (expectedOutput j)
    · exact ⟨failUpd, rfl, Or.inr rfl⟩
    · exact ⟨_, rfl, Or.inl rfl⟩

/-- C4: over one job's lifetime the status is monotone along
`queued → processing → (completed | error)`: the record is created `queued`,
every update the runner makes before the outcome is `processing`, the final
update is the single terminal one (`completed` or `error`), no update ever
writes `queued`, and nothing follows the terminal update. -/
theorem status_single_terminal (j : Job) (env : DlEnv) :
    (initialRec 0).status = Status.queued ∧
    ∃ pre last, (runDownload j env).updates = pre ++ [last] ∧
      (∀ u ∈ pre, u.status = Status.processing) ∧
      (last.status = Status.completed ∨ last.status = Status.error) ∧
      ∀ u ∈ (runDownload j env).updates, u.status ≠ Status.queued := by
  obtain ⟨last, hsh, hterm⟩ := runDownload_updates_shape j env
  refine ⟨rfl, progressUpdates env.events, last, hsh,
    fun u hu => progressUpdates_status hu, hterm, ?_⟩
  intro u hu
  rw [hsh] at hu
  rcases List.mem_append.mp hu with h | h
  · rw [progressUpdates_status h]; simp
  · have : u = last := by simpa using h
    subst this
    rcases hterm with h2 | h2 <;> simp [h2]

/-- Counterexample to C5 as stated: the error-path cleanup deletes only files
whose name *starts with* the job id, not every file whose name *contains* it.
With the directory holding `x-abc123.mp3`, a failing job `abc123` deletes
nothing, although that file name contains the id. -/
theorem cleanup_skips_containing_file :
    (runDownload ⟨"abc123", "u", "mp3", "192"⟩
        { titleOut := none, events := [], exitOk := false,
          files := ["x-abc123.mp3"], size := 0, fmtMB := fun _ => "" }).deleted
      = [] ∧
    containsSeq "abc123".toList "x-abc123.mp3".toList = true := by
  exact ⟨rfl, by decide⟩

/-- C5 (amended): every execution failure after admission (non-zero exit,
spawn error, timeout — all reaching the runner's `catch` — or artifact
missing) is caught locally: the run's final update sets status `error` with
progress 0 and the message `'Download failed'`, no artifact fields are set,
and every directory entry whose name **starts with** the job id is deleted
(files merely containing the id elsewhere in their name survive; the
`part_000` variant filters by containment instead).  The runner always
returns an outcome — no failure propagates. -/
theorem error_caught_and_cleaned (j : Job) (env : DlEnv)
    (hfail : env.exitOk = false ∨
      resolveArtifact env.files j.id (expectedOutput j) = none) :
    (runDownload j env).updates.getLast? = some failUpd ∧
    failUpd.status = Status.error ∧ failUpd.progress = 0 ∧
    (runDownload j env).deleted
      = env.files.filter (fun f => startsWithStr f j.id) ∧
    (runDownload j env).filePath = none ∧ (runDownload j env).fileSize = none := by
  have hout : (runDownload j env).updates = progressUpdates env.events ++ [failUpd] ∧
      (runDownload j env).deleted = env.files.filter (fun f => startsWithStr f j.id) ∧
      (runDownload j env).filePath = none ∧ (runDownload j env).fileSize = none := by
    unfold runDownload
    cases hE : env.exitOk
    · exact ⟨rfl, rfl, rfl, rfl⟩
    · rcases hfail with h | h
      · rw [hE] at h; cases h
      · simp only [h]
        exact ⟨rfl, rfl, rfl, rfl⟩
  refine ⟨?_, rfl, rfl, hout.2.1, hout.2.2.1, hout.2.2.2⟩
  rw [hout.1]
  simp

/-- Witness for C5 (amended): a job whose external tool exits non-zero, with
one partial file starting with the id and one unrelated file present. -/
theorem error_caught_and_cleaned_witness :
    (runDownload ⟨"j1", "u", "mp4", "720"⟩
        { titleOut := some "My Song", events := [3], exitOk := false,
          files := ["j1.mp4.part", "other.mp4"], size := 0,
          fmtMB := fun _ => "" }).updates.getLast? = some failUpd ∧
    failUpd.status = Status.error ∧ failUpd.progress = 0 ∧
    (runDownload ⟨"j1", "u", "mp4", "720"⟩
        { titleOut := some "My Song", events := [3], exitOk := false,
          files := ["j1.mp4.part", "other.mp4"], size := 0,
          fmtMB := fun _ => "" }).deleted
      = ["j1.mp4.part", "other.mp4"].filter (fun f => startsWithStr f "j1") ∧
    (runDownload ⟨"j1", "u", "mp4", "720"⟩
        { titleOut := some "My Song", events := [3], exitOk := false,
          files := ["j1.mp4.part", "other.mp4"], size := 0,
          fmtMB := fun _ => "" }).filePath = none ∧
    (runDownload ⟨"j1", "u", "mp4", "720"⟩
        { titleOut := some "My Song", events := [3], exitOk := false,
          files := ["j1.mp4.part", "other.mp4"], size := 0,
          fmtMB := fun _ => "" }).fileSize = none :=
  error_caught_and_cleaned ⟨"j1", "u", "mp4", "720"⟩
    { titleOut := some "My Song", events := [3], exitOk := false,
      files := ["j1.mp4.part", "other.mp4"], size := 0, fmtMB := fun _ => "" }
    (Or.inl rfl)

/-- Counterexample to C6 as stated: the fallback scan takes the first file
whose name *starts with* the job id, not the first file *containing* it.
With the expected path absent and the directory holding only
`x-abc123.mp4` — whose name contains the id `abc123` — the scan finds
nothing and the job fails with the `'File not created'` error path, while the
claim says that file becomes the artifact. -/
theorem artifact_scan_skips_containing_file :
    resolveArtifact ["x-abc123.mp4"] "abc123" "abc123.mp4" = none ∧
    containsSeq "abc123".toList "x-abc123.mp4".toList = true ∧
    (runDownload ⟨"abc123", "u", "mp4", "720"⟩
        { titleOut := none, events := [], exitOk := true,
          files := ["x-abc123.mp4"], size := 0, fmtMB := fun _ => "" }).updates.getLast?
      = some failUpd := by
  refine ⟨by decide, by decide, rfl⟩

/-- C6 (amended): after a successful tool exit, the artifact is the expected
exact output name when present in the directory; otherwise it is the first
directory entry whose name **starts with** the job id; when neither exists the
resolution is empty, the existence check throws `'File not created'`, and the
job ends in the `error` terminal update. -/
theorem artifact_resolution (j : Job) (env : DlEnv) (hexit : env.exitOk = true) :
    (env.files.contains (expectedOutput j) = true →
      resolveArtifact env.files j.id (expectedOutput j) = some (expectedOutput j)) ∧
    (env.files.contains (expectedOutput j) = false →
      resolveArtifact env.files j.id (expectedOutput j)
        = env.files.find? (fun f => startsWithStr f j.id)) ∧
    (∀ p, resolveArtifact env.files j.id (expectedOutput j) = some p →
      (runDownload j env).filePath = some p ∧
      ((runDownload j env).updates.getLast?.map Upd.status) = some Status.completed) ∧
    (resolveArtifact env.files j.id (expectedOutput j) = none →
      (runDownload j env).updates.getLast? = some failUpd ∧
      (runDownload j env).filePath = none) := by
  refine ⟨?_, ?_, ?_, ?_⟩
  · intro h
    unfold resolveArtifact
    rw [h]
    simp
  · intro h
    unfold resolveArtifact
    rw [h]
    simp
  · intro p hp
    unfold runDownload
    rw [hexit]
    simp only [hp]
    refine ⟨rfl, ?_⟩
    simp
  · intro hp
    unfold runDownload
    rw [hexit]
    simp only [hp]
    constructor
    · simp
    · rfl

/-- Witness for C6 (amended): the expected output `abc.mp3` exists, so it is
the artifact and the job completes. -/
theorem artifact_resolution_witness :
    resolveArtifact ["abc.mp3"] "abc" (expectedOutput ⟨"abc", "u", "mp3", "192"⟩)
      = some (expectedOutput ⟨"abc", "u", "mp3", "192"⟩) ∧
    (runDownload ⟨"abc", "u", "mp3", "192"⟩
        { titleOut := none, events := [50], exitOk := true,
          files := ["abc.mp3"], size := 1024, fmtMB := fun _ => "0.00" }).filePath
      = some "abc.mp3" := by
  have h := artifact_resolution ⟨"abc", "u", "mp3", "192"⟩
    { titleOut := none, events := [50], exitOk := true,
      files := ["abc.mp3"], size := 1024, fmtMB := fun _ => "0.00" } rfl
  have h1 := h.1 (by decide)
  refine ⟨h1, ?_⟩
  have h2 := (h.2.2.1 (expectedOutput ⟨"abc", "u", "mp3", "192"⟩) h1).1
  rw [h2]
  decide

/-! ## Bounded queue (src/server.js lines 156-174, 428-459)

`processQueue` runs synchronously on the single-threaded event loop, so the
system's behaviour is a sequence of two kinds of atomic steps: a submission
(the convert handler plus `addToQueue`) and the settlement of a running
download (its `.finally` continuation).  `running`, `started`, `finished` and
`submitted` are ghost logs recording, respectively, the jobs currently
executing, the dispatch order, the settled jobs, and the accepted-submission
order. -/

/-- `MAX_CONCURRENT` (src/server.js line 158). -/
def MAX_CONCURRENT : Nat := 2

/-- Occurrences of a job in a list. -/
def countJob (j : Job) : List Job → Nat
  | [] => 0
  | k :: rest => (if k = j then 1 else 0) + countJob j rest

/-- Remove the first occurrence of a job. -/
def removeJob (j : Job) : List Job → List Job
  | [] => []
  | k :: rest => if k = j then rest else k :: removeJob j rest

/-- State of the queue subsystem (plus ghost logs). -/
structure QState where
  queue : List Job
  activeJobs : Nat
  running : List Job
  started : List Job
  finished : List Job
  submitted : List Job
deriving DecidableEq, Repr

/-- The loop body of `processQueue`: while a worker slot is free and the queue
is non-empty, increment `activeJobs`, shift the head and start it. -/
def dispatch (active : Nat) :
    List Job → List Job → List Job → Nat × List Job × List Job × List Job
  | [], run, started => (active, [], run, started)
  | jb :: rest, run, started =>
    if active < MAX_CONCURRENT then
      dispatch (active + 1) rest (run ++ [jb]) (started ++ [jb])
    else (active, jb :: rest, run, started)

/-- `processQueue()`. -/
def processQueue (s : QState) : QState :=
  { s with activeJobs := (dispatch s.activeJobs s.queue s.running s.started).1,
           queue := (dispatch s.activeJobs s.queue s.running s.started).2.1,
           running := (dispatch s.activeJobs s.queue s.running s.started).2.2.1,
           started := (dispatch s.activeJobs s.queue s.running s.started).2.2.2 }

/-- A submission: the convert handler rejects with 503 when 20 jobs are
already pending; otherwise `addToQueue` appends to the tail and runs
`processQueue`. -/
def submitJob (s : QState) (j : Job) : QState :=
  if 20 ≤ s.queue.length then s
  else processQueue
    { s with queue := s.queue ++ [j], submitted := s.submitted ++ [j] }

/-- The `.finally` continuation of a settled `runDownload`: decrement
`activeJobs` and run `processQueue` again. -/
def finishJob (s : QState) (j : Job) : QState :=
  processQueue
    { s with activeJobs := s.activeJobs - 1,
             running := removeJob j s.running,
             finished := s.finished ++ [j] }

/-- Atomic steps of the queue subsystem. -/
inductive QStep : QState → QState → Prop
  | submit (s : QState) (j : Job) : QStep s (submitJob s j)
  | finish (s : QState) (j : Job) (h : j ∈ s.running) : QStep s (finishJob s j)

/-- The empty initial system. -/
def initState : QState := ⟨[], 0, [], [], [], []⟩

/-- States reachable from the empty system by submissions and settlements. -/
inductive Reach : QState → Prop
  | init : Reach initState
  | step {s t : QState} : Reach s → QStep s t → Reach t

/-- The inductive invariant of the queue subsystem. -/
def QInv (s : QState) : Prop :=
  s.activeJobs = s.running.length ∧
  s.activeJobs ≤ MAX_CONCURRENT ∧
  (s.queue ≠ [] → s.activeJobs = MAX_CONCURRENT) ∧
  s.submitted = s.started ++ s.queue ∧
  ∀ j, countJob j s.started = countJob j s.finished + countJob j s.running

lemma countJob_append (j : Job) (a b : List Job) :
    countJob j (a ++ b) = countJob j a + countJob j b := by
  induction a with
  | nil => simp [countJob]
  | cons k rest ih =>
    show (if k = j then 1 else 0) + countJob j (rest ++ b)
        = (if k = j then 1 else 0) + countJob j rest + countJob j b
    rw [ih]
    omega

lemma countJob_pos {j : Job} {l : List Job} (h : j ∈ l) : 1 ≤ countJob j l := by
  induction l with
  | nil => cases h
  | cons k rest ih =>
    simp only [countJob]
    rcases List.mem_cons.mp h with h1 | h1
    · rw [if_pos h1.symm]; omega
    · have := ih h1
      split <;> omega

lemma length_removeJob {j : Job} {l : List Job} (h : j ∈ l) :
    (removeJob j l).length + 1 = l.length := by
  induction l with
  | nil => cases h
  | cons k rest ih =>
    simp only [removeJob]
    by_cases hk : k = j
    · rw [if_pos hk]; simp
    · rw [if_neg hk]
      rcases List.mem_cons.mp h with h1 | h1
      · exact absurd h1.symm hk
      · have := ih h1
        simp only [List.length_cons]
        omega

lemma countJob_removeJob_self {j : Job} {l : List Job} (h : j ∈ l) :
    countJob j (removeJob j l) + 1 = countJob j l := by
  induction l with
  | nil => cases h
  | cons k rest ih =>
    simp only [removeJob, countJob]
    by_cases hk : k = j
    · rw [if_pos hk, if_pos hk]; omega
    · rw [if_neg hk, if_neg hk]
      rcases List.mem_cons.mp h with h1 | h1
      · exact absurd h1.symm hk
      · have := ih h1
        simp only [countJob]
        rw [if_neg hk]
        omega

lemma countJob_removeJob_ne {k j : Job} (hne : ¬ j = k) (l : List Job) :
    countJob k (removeJob j l) = countJob k l := by
  induction l with
  | nil => rfl
  | cons m rest ih =>
    simp only [removeJob, countJob]
    by_cases hm : m = j
    · rw [if_pos hm, if_neg (fun e => hne (hm.symm.trans e))]
      omega
    · rw [if_neg hm]
      simp only [countJob, ih]

lemma dispatch_spec (queue : List Job) :
    ∀ active run started, active ≤ MAX_CONCURRENT →
    ∃ d q, dispatch active queue run started
        = (active + d.length, q, run ++ d, started ++ d) ∧
      queue = d ++ q ∧ active + d.length ≤ MAX_CONCURRENT ∧
      (q ≠ [] → active + d.length = MAX_CONCURRENT) := by
  induction queue with
  | nil =>
    intro active run started h
    exact ⟨[], [], by simp [dispatch], by simp, by simpa using h, by simp⟩
  | cons jb rest ih =>
    intro active run started h
    by_cases hlt : active < MAX_CONCURRENT
    · obtain ⟨d, q, h1, h2, h3, h4⟩ := ih (active + 1) (run ++ [jb]) (started ++ [jb]) hlt
      refine ⟨jb :: d, q, ?_, by simp [h2], by simp only [List.length_cons]; omega,
        fun hq => by have := h4 hq; simp only [List.length_cons]; omega⟩
      calc dispatch active (jb :: rest) run started
          = dispatch (active + 1) rest (run ++ [jb]) (started ++ [jb]) := by
            simp [dispatch, hlt]
        _ = (active + 1 + d.length, q, run ++ [jb] ++ d, started ++ [jb] ++ d) := h1
        _ = (active + (jb :: d).length, q, run ++ jb :: d, started ++ jb :: d) := by
            rw [List.append_assoc, List.append_assoc]
            simp only [List.singleton_append, List.length_cons]
            congr 1
            omega
    · refine ⟨[], jb :: rest, by simp [dispatch, hlt], by simp, by simpa using h,
        fun _ => by simp only [List.length_nil, Nat.add_zero]; omega⟩

lemma processQueue_spec (s : QState) (h : s.activeJobs ≤ MAX_CONCURRENT) :
    ∃ d : List Job,
      (processQueue s).activeJobs = s.activeJobs + d.length ∧
      (processQueue s).running = s.running ++ d ∧
      (processQueue s).started = s.started ++ d ∧
      s.queue = d ++ (processQueue s).queue ∧
      (processQueue s).finished = s.finished ∧
      (processQueue s).submitted = s.submitted ∧
      (processQueue s).activeJobs ≤ MAX_CONCURRENT ∧
      ((processQueue s).queue ≠ [] → (processQueue s).activeJobs = MAX_CONCURRENT) := by
  obtain ⟨d, q, hd, hq, hle, hfull⟩ :=
    dispatch_spec s.queue s.activeJobs s.running s.started h
  have e1 : (processQueue s).activeJobs = s.activeJobs + d.length := by
    show (dispatch s.activeJobs s.queue s.running s.started).1 = s.activeJobs + d.length
    rw [hd]
  have e2 : (processQueue s).queue = q := by
    show (dispatch s.activeJobs s.queue s.running s.started).2.1 = q
    rw [hd]
  have e3 : (processQueue s).running = s.running ++ d := by
    show (dispatch s.activeJobs s.queue s.running s.started).2.2.1 = s.running ++ d
    rw [hd]
  have e4 : (processQueue s).started = s.started ++ d := by
    show (dispatch s.activeJobs s.queue s.running s.started).2.2.2 = s.started ++ d
    rw [hd]
  refine ⟨d, e1, e3, e4, ?_, rfl, rfl, ?_, ?_⟩
  · rw [e2]; exact hq
  · rw [e1]; exact hle
  · rw [e2, e1]; exact hfull

lemma processQueue_inv (s : QState)
    (h1 : s.activeJobs = s.running.length)
    (h2 : s.activeJobs ≤ MAX_CONCURRENT)
    (h4 : s.submitted = s.started ++ s.queue)
    (h5 : ∀ j, countJob j s.started = countJob j s.finished + countJob j s.running) :
    QInv (processQueue s) := by
  obtain ⟨d, e1, e2, e3, e4, e5, e6, e7, e8⟩ := processQueue_spec s h2
  refine ⟨?_, e7, e8, ?_, ?_⟩
  · rw [e1, e2, List.length_append, h1]
  · rw [e6, e3, h4, e4, List.append_assoc]
  · intro j
    rw [e3, e5, e2, countJob_append, countJob_append, h5 j]
    omega

lemma submitJob_inv (s : QState) (j : Job) (h : QInv s) : QInv (submitJob s j) := by
  obtain ⟨h1, h2, h3, h4, h5⟩ := h
  unfold submitJob
  by_cases hc : 20 ≤ s.queue.length
  · rw [if_pos hc]
    exact ⟨h1, h2, h3, h4, h5⟩
  · rw [if_neg hc]
    refine processQueue_inv _ h1 h2 ?_ h5
    show s.submitted ++ [j] = s.started ++ (s.queue ++ [j])
    rw [h4, List.append_assoc]

lemma finishJob_inv (s : QState) (j : Job) (hj : j ∈ s.running) (h : QInv s) :
    QInv (finishJob s j) := by
  obtain ⟨h1, h2, h3, h4, h5⟩ := h
  unfold finishJob
  refine processQueue_inv _ ?_ ?_ h4 ?_
  · show s.activeJobs - 1 = (removeJob j s.running).length
    have := length_removeJob hj
    omega
  · show s.activeJobs - 1 ≤ MAX_CONCURRENT
    omega
  · intro k
    show countJob k s.started
        = countJob k (s.finished ++ [j]) + countJob k (removeJob j s.running)
    rw [countJob_append]
    have h5k := h5 k
    by_cases hk : j = k
    · subst hk
      have ha := countJob_removeJob_self hj
      have hb := countJob_pos hj
      have hsing : countJob j [j] = 1 := by simp [countJob]
      omega
    · rw [countJob_removeJob_ne hk]
      have hsing : countJob k [j] = 0 := by simp [countJob, hk]
      omega

lemma reach_inv {s : QState} (h : Reach s) : QInv s := by
  induction h with
  | init =>
    refine ⟨rfl, by decide, ?_, rfl, fun j => rfl⟩
    intro hq
    exact absurd rfl hq
  | step _ hst ih =>
    cases hst with
    | submit j => exact submitJob_inv _ j ih
    | finish j hj => exact finishJob_inv _ j hj ih

/-- C1: no reachable state of the queue/dispatch step relation has more than
`MAX_CONCURRENT = 2` concurrently running job executions: both the
`activeJobs` counter and the number of jobs currently in execution (hence in
the `processing` state) are bounded by the configured maximum, for every
sequence of submissions and settlements from the empty system. -/
theorem concurrency_bound {s : QState} (h : Reach s) :
    s.activeJobs ≤ MAX_CONCURRENT ∧ s.running.length ≤ MAX_CONCURRENT := by
  have hi := reach_inv h
  exact ⟨hi.2.1, hi.1 ▸ hi.2.1⟩

/-- Witness for C1 at a concrete reachable state: one submission into the
empty system. -/
theorem concurrency_bound_witness :
    (submitJob initState ⟨"a", "u", "mp3", "192"⟩).activeJobs ≤ MAX_CONCURRENT ∧
    (submitJob initState ⟨"a", "u", "mp3", "192"⟩).running.length ≤ MAX_CONCURRENT :=
  concurrency_bound
    (Reach.step Reach.init (QStep.submit initState ⟨"a", "u", "mp3", "192"⟩))

/-- C2: dispatch is strict FIFO.  In every reachable state the accepted
submissions, in submission order, are exactly the jobs already started (in
the order they began processing) followed by the still-pending queue: the
dispatch log is always the initial segment of the submission log, so two jobs
submitted in some order begin processing in that same order; nothing is ever
reordered or prioritized. -/
theorem fifo_dispatch_order {s : QState} (h : Reach s) :
    s.submitted = s.started ++ s.queue ∧
    s.started = s.submitted.take s.started.length := by
  have hi := reach_inv h
  refine ⟨hi.2.2.2.1, ?_⟩
  rw [hi.2.2.2.1, List.take_left]

/-- Witness for C2 at a concrete reachable state: two submissions into the
empty system. -/
theorem fifo_dispatch_order_witness :
    (submitJob (submitJob initState ⟨"a", "u", "mp3", "192"⟩)
        ⟨"b", "u", "mp4", "720"⟩).submitted
      = (submitJob (submitJob initState ⟨"a", "u", "mp3", "192"⟩)
            ⟨"b", "u", "mp4", "720"⟩).started
          ++ (submitJob (submitJob initState ⟨"a", "u", "mp3", "192"⟩)
                ⟨"b", "u", "mp4", "720"⟩).queue ∧
    (submitJob (submitJob initState ⟨"a", "u", "mp3", "192"⟩)
        ⟨"b", "u", "mp4", "720"⟩).started
      = (submitJob (submitJob initState ⟨"a", "u", "mp3", "192"⟩)
            ⟨"b", "u", "mp4", "720"⟩).submitted.take
          (submitJob (submitJob initState ⟨"a", "u", "mp3", "192"⟩)
              ⟨"b", "u", "mp4", "720"⟩).started.length :=
  fifo_dispatch_order
    (Reach.step
      (Reach.step Reach.init (QStep.submit initState ⟨"a", "u", "mp3", "192"⟩))
      (QStep.submit (submitJob initState ⟨"a", "u", "mp3", "192"⟩)
        ⟨"b", "u", "mp4", "720"⟩))

/-- Run settlements until no job is executing; the fuel
`queue.length + running.length` is exactly the number of settlements needed. -/
def drainAux : Nat → QState → QState
  | 0, s => s
  | fuel + 1, s =>
    match s.running with
    | [] => s
    | j :: _ => drainAux fuel (finishJob s j)

/-- Settle every admitted job. -/
def drain (s : QState) : QState :=
  drainAux (s.queue.length + s.running.length) s

lemma finishJob_sizes (s : QState) (j : Job)
    (h2 : s.activeJobs ≤ MAX_CONCURRENT) (hj : j ∈ s.running) :
    (finishJob s j).queue.length + (finishJob s j).running.length + 1
        = s.queue.length + s.running.length ∧
    (finishJob s j).submitted = s.submitted ∧
    ∀ k, countJob k (finishJob s j).finished + countJob k (finishJob s j).running
          + countJob k (finishJob s j).queue
        = countJob k s.finished + countJob k s.running + countJob k s.queue := by
  have hact : ({ s with
      activeJobs := s.activeJobs - 1,
      running := removeJob j s.running,
      finished := s.finished ++ [j] } : QState).activeJobs ≤ MAX_CONCURRENT := by
    show s.activeJobs - 1 ≤ MAX_CONCURRENT
    omega
  obtain ⟨d, e1, e2, e3, e4, e5, e6, _, _⟩ :=
    processQueue_spec { s with
      activeJobs := s.activeJobs - 1,
      running := removeJob j s.running, finished := s.finished ++ [j] } hact
  have f2 : (finishJob s j).running = removeJob j s.running ++ d := e2
  have f4 : s.queue = d ++ (finishJob s j).queue := e4
  have f5 : (finishJob s j).finished = s.finished ++ [j] := e5
  have f6 : (finishJob s j).submitted = s.submitted := e6
  have l1 : s.queue.length = d.length + (finishJob s j).queue.length := by
    rw [f4, List.length_append]
  have l2 : (finishJob s j).running.length
      = (removeJob j s.running).length + d.length := by
    rw [f2, List.length_append]
  have l3 := length_removeJob hj
  refine ⟨by omega, f6, ?_⟩
  intro k
  have c1 : countJob k s.queue = countJob k d + countJob k (finishJob s j).queue := by
    rw [f4, countJob_append]
  have c2 : countJob k (finishJob s j).running
      = countJob k (removeJob j s.running) + countJob k d := by
    rw [f2, countJob_append]
  have c3 : countJob k (finishJob s j).finished
      = countJob k s.finished + countJob k [j] := by
    rw [f5, countJob_append]
  by_cases hk : j = k
  · subst hk
    have ha := countJob_removeJob_self hj
    have hsing : countJob j [j] = 1 := by simp [countJob]
    omega
  · have hb := countJob_removeJob_ne hk s.running
    have hsing : countJob k [j] = 0 := by simp [countJob, hk]
    omega

lemma drainAux_spec :
    ∀ fuel s, QInv s → s.queue.length + s.running.length ≤ fuel →
      QInv (drainAux fuel s) ∧ (drainAux fuel s).running = [] ∧
      (drainAux fuel s).queue = [] ∧
      (drainAux fuel s).submitted = s.submitted ∧
      (∀ j, countJob j (drainAux fuel s).finished
          = countJob j s.finished + countJob j s.running + countJob j s.queue) ∧
      (Reach s → Reach (drainAux fuel s)) := by
  intro fuel
  induction fuel with
  | zero =>
    intro s hInv hle
    have hr : s.running = [] := List.length_eq_zero.mp (by omega)
    have hqe : s.queue = [] := List.length_eq_zero.mp (by omega)
    refine ⟨hInv, hr, hqe, rfl, ?_, fun h => h⟩
    intro j
    show countJob j s.finished
        = countJob j s.finished + countJob j s.running + countJob j s.queue
    rw [hr, hqe]
    simp [countJob]
  | succ fuel ih =>
    intro s hInv hle
    obtain ⟨h1, h2, h3, h4, h5⟩ := hInv
    cases hr : s.running with
    | nil =>
      have hqe : s.queue = [] := by
        by_contra hne
        have := h3 hne
        rw [h1, hr] at this
        simp [MAX_CONCURRENT] at this
      have hid : drainAux (fuel + 1) s = s := by
        simp [drainAux, hr]
      rw [hid]
      refine ⟨⟨h1, h2, h3, h4, h5⟩, hr, hqe, rfl, ?_, fun h => h⟩
      intro j
      rw [hqe]
      simp [countJob]
    | cons j rest =>
      have hj : j ∈ s.running := by rw [hr]; exact List.mem_cons_self j rest
      have hInv2 : QInv (finishJob s j) := finishJob_inv s j hj ⟨h1, h2, h3, h4, h5⟩
      obtain ⟨hsz, hsub, hcnt⟩ := finishJob_sizes s j h2 hj
      have hle2 : (finishJob s j).queue.length + (finishJob s j).running.length ≤ fuel := by
        omega
      obtain ⟨i1, i2, i3, i4, i5, i6⟩ := ih (finishJob s j) hInv2 hle2
      have hstep : drainAux (fuel + 1) s = drainAux fuel (finishJob s j) := by
        simp [drainAux, hr]
      rw [hstep]
      exact ⟨i1, i2, i3, by rw [i4, hsub], fun k => by rw [i5 k, hcnt k, hr],
        fun h => i6 (Reach.step h (QStep.finish s j hj))⟩

/-- C9: admitted jobs are executed exactly once and never dropped.  In every
reachable state each accepted submission is accounted for exactly once —
still pending, currently executing, or settled — and each dispatched job is
either executing or settled, never both and never twice; moreover, once every
started execution settles (each settlement decrementing `activeJobs` once,
via the step relation itself), the system drains: `drain` reaches, through
legal steps, a state with an empty queue, no running job, and every accepted
submission settled exactly as many times as it was submitted. -/
theorem admitted_jobs_run_exactly_once {s : QState} (h : Reach s) :
    (∀ j : Job, countJob j s.submitted
        = countJob j s.finished + countJob j s.running + countJob j s.queue) ∧
    (∀ j : Job, countJob j s.started
        = countJob j s.finished + countJob j s.running) ∧
    (drain s).queue = [] ∧ (drain s).running = [] ∧ Reach (drain s) ∧
    ∀ j : Job, countJob j (drain s).finished = countJob j s.submitted := by
  have hi := reach_inv h
  obtain ⟨h1, h2, h3, h4, h5⟩ := hi
  obtain ⟨d1, d2, d3, _, d5, d6⟩ :=
    drainAux_spec (s.queue.length + s.running.length) s ⟨h1, h2, h3, h4, h5⟩ le_rfl
  have hsubm : ∀ j : Job, countJob j s.submitted
      = countJob j s.finished + countJob j s.running + countJob j s.queue := by
    intro j
    rw [h4, countJob_append, h5 j]
  exact ⟨hsubm, h5, d3, d2, d6 h, fun j => by rw [drain, d5 j, hsubm j]⟩

/-- Witness for C9 at a concrete reachable state: one accepted submission,
then the system drained. -/
theorem admitted_jobs_run_exactly_once_witness :
    countJob ⟨"c", "u", "mp3", "192"⟩
        (drain (submitJob initState ⟨"c", "u", "mp3", "192"⟩)).finished
      = countJob ⟨"c", "u", "mp3", "192"⟩
          (submitJob initState ⟨"c", "u", "mp3", "192"⟩).submitted ∧
    (drain (submitJob initState ⟨"c", "u", "mp3", "192"⟩)).running = [] ∧
    (drain (submitJob initState ⟨"c", "u", "mp3", "192"⟩)).queue = [] := by
  have h := admitted_jobs_run_exactly_once
    (Reach.step Reach.init (QStep.submit initState ⟨"c", "u", "mp3", "192"⟩))
  exact ⟨h.2.2.2.2.2 _, h.2.2.2.1, h.2.2.1⟩

end TubeGrab
